import Mathlib

/-!
Verification of the optimization core of HiSim-Building-Sizer.

This file gives a shallow embedding of the genotype encoding/decoding
(`individual_encoding.py`), the genetic operators
(`evolutionary_algorithm.py`), the iteration protocol
(`building_sizer_algorithm.py`) and the driver loop
(`start_building_sizer_no_utsp.py`), and proves or refutes the frozen
claims about them.

Modelling conventions:
* Python floats (ratings, discrete catalog values, probabilities) are
  modelled as rationals; the claims considered here depend only on
  ordering and equality of these values.
* Randomness (`random.randint`, `random.random`, `random.choice`,
  `random.shuffle`) is modelled by explicit draw parameters: a raw draw
  `d : Nat` for `random.randint(lo, hi)` yields the value
  `lo + d % (hi - lo + 1)` when the range is non-empty and an error
  (Python `ValueError`) otherwise; `random.shuffle` is modelled by
  quantifying over all permutations of the shuffled list.
* Python exceptions (`ValueError`, `IndexError`, `AssertionError`) are
  modelled by `Except` error results.
-/

/-- A value stored in a configuration attribute: either a boolean flag or a
discrete (numeric) size value. -/
inductive GeneValue where
  | b (x : Bool)
  | q (x : ℚ)
deriving DecidableEq

/-- Reading a gene value as a boolean (used when an attribute listed in
`bool_attributes` is read off a config). -/
def GeneValue.asBool : GeneValue → Bool
  | .b x => x
  | .q _ => false

/-- Reading a gene value as a discrete value (used when an attribute listed
in `discrete_attributes` is read off a config). -/
def GeneValue.asQ : GeneValue → ℚ
  | .q x => x
  | .b _ => 0

/-- `Individual` from `individual_encoding.py`: a system config encoded as a
boolean vector and a discrete vector. -/
structure Individual where
  bool_vector : List Bool
  discrete_vector : List ℚ
deriving DecidableEq

instance : Inhabited Individual := ⟨⟨[], []⟩⟩

/-- `RatedIndividual` from `individual_encoding.py`: an individual together
with its fitness value. -/
structure RatedIndividual where
  individual : Individual
  rating : ℚ
deriving DecidableEq

/-- `SizingOptions` from `individual_encoding.py`, with the dataclass default
values of its fields. -/
structure SizingOptions where
  pv_peak_power : List ℚ := [600, 1200, 1800, 3000, 6000, 9000, 12000, 15000]
  battery_capacity : List ℚ := [3/10, 3/5, 3/2, 3, 5, 15/2, 10, 15]
  buffer_volume : List ℚ := [200, 300, 500, 750, 1000, 1500, 3000]
  bool_attributes : List String := ["pv_included", "battery_included"]
  discrete_attributes : List String := ["pv_peak_power", "battery_capacity"]
  probabilities : List ℚ := [4/5, 2/5]
deriving DecidableEq

/-- `getattr(options, name)` for the three catalog fields holding lists of
allowed discrete values; `none` models an `AttributeError` (no such list). -/
def SizingOptions.getListAttr (o : SizingOptions) (name : String) : Option (List ℚ) :=
  if name = "pv_peak_power" then some o.pv_peak_power
  else if name = "battery_capacity" then some o.battery_capacity
  else if name = "buffer_volume" then some o.buffer_volume
  else none

/-- The dataclass fields of `SizingOptions`; `hasattr(self, name)` in
`SizingOptions.__post_init__` tests membership in this set. -/
def sizingOptionsFieldNames : List String :=
  ["pv_peak_power", "battery_capacity", "buffer_volume", "bool_attributes",
    "discrete_attributes", "probabilities"]

/-- `hasattr(SizingOptions, name)` as used by `__post_init__`. -/
def sizingOptionsHasAttr (name : String) : Bool :=
  sizingOptionsFieldNames.contains name

/-- `SizingOptions.__post_init__`: returns `true` iff construction succeeds.
It checks that every name in `bool_attributes ++ discrete_attributes` is an
attribute of the downstream `SystemConfig` type (whose attribute names are the
parameter `systemConfigAttrs`, as that class lives in the external HiSim
package), and that every name in `discrete_attributes` is an attribute of
`SizingOptions` itself.  `false` models the raised `Exception`. -/
def post_init_ok (systemConfigAttrs : List String) (o : SizingOptions) : Bool :=
  ((o.bool_attributes ++ o.discrete_attributes).all fun n => systemConfigAttrs.contains n) &&
  (o.discrete_attributes.all fun n => sizingOptionsHasAttr n)

/-- A HiSim `SystemConfig` object, modelled as an assignment of a gene value
to every attribute name (the class itself lives in the external HiSim
package; the building sizer only ever reads and writes its attributes
generically with `getattr`/`setattr`). -/
abbrev SystemConfig := String → GeneValue

/-- Executing a list of `setattr(config, name, value)` calls in order. -/
def applyWrites (c : SystemConfig) (ws : List (String × GeneValue)) : SystemConfig :=
  ws.foldl (fun f p => Function.update f p.1 p.2) c

/-- `create_individual_from_config` from `individual_encoding.py`: reads each
attribute named by the schema off the config, in schema order, into the two
genotype vectors. -/
def create_individual_from_config (c : SystemConfig) (o : SizingOptions) : Individual :=
  ⟨o.bool_attributes.map fun n => (c n).asBool,
    o.discrete_attributes.map fun n => (c n).asQ⟩

/-- The write trace of `create_config_from_individual` from
`individual_encoding.py`: the list of `setattr` calls executed, in order, and
whether the function completed (`false` models a failed length `assert`).
The bool-length assert precedes the bool writes; the discrete-length assert
runs after them. -/
def decode_writes (ind : Individual) (o : SizingOptions) :
    List (String × GeneValue) × Bool :=
  if o.bool_attributes.length = ind.bool_vector.length then
    let boolWrites := o.bool_attributes.zip (ind.bool_vector.map GeneValue.b)
    if o.discrete_attributes.length = ind.discrete_vector.length then
      (boolWrites ++ o.discrete_attributes.zip (ind.discrete_vector.map GeneValue.q), true)
    else (boolWrites, false)
  else ([], false)

/-- `create_config_from_individual` from `individual_encoding.py`: builds a
config from the default object `dflt` (the `SystemConfig()` constructor of the
external HiSim package) by applying the write trace; `none` models a failed
length assert. -/
def create_config_from_individual (dflt : SystemConfig) (ind : Individual)
    (o : SizingOptions) : Option SystemConfig :=
  match decode_writes ind o with
  | (ws, true) => some (applyWrites dflt ws)
  | (_, false) => none

/-- The comparison used by `selection`: `sorted(key=rating, reverse=True)`
sorts so that higher ratings come first. -/
def ratedGE (a b : RatedIndividual) : Prop := b.rating ≤ a.rating

instance : DecidableRel ratedGE := fun a b => inferInstanceAs (Decidable (b.rating ≤ a.rating))

instance : IsTotal RatedIndividual ratedGE := ⟨fun a b => le_total b.rating a.rating⟩

instance : IsTrans RatedIndividual ratedGE := ⟨fun _ _ _ h1 h2 => le_trans h2 h1⟩

/-- `sorted(rated_individuals, key=rating, reverse=True)`: the stable sort by
descending rating (Python's sort is stable; a stable insertion sort computes
the same list). -/
def sorted_descending (rated : List RatedIndividual) : List RatedIndividual :=
  List.insertionSort ratedGE rated

/-- Python list slicing `l[:k]` for an `int` bound `k`: a non-negative bound
keeps the first `k` elements; a negative bound drops the last `|k|`. -/
def python_take (k : Int) (l : List α) : List α :=
  if 0 ≤ k then l.take k.toNat else l.take (l.length - (-k).toNat)

/-- `selection` from `evolutionary_algorithm.py` before the final
`random.shuffle`: sort by descending rating, then truncate with
`[:population_size]`.  The shuffle is modelled in the theorems by quantifying
over all permutations of this list. -/
def selection_core (rated : List RatedIndividual) (population_size : Int) :
    List RatedIndividual :=
  python_take population_size (sorted_descending rated)

/-- Errors raised by the genetic operators: `ValueError` of `random.randint`
on an empty range, the unknown-mode `ValueError` of `evolution`, the
`AssertionError` of `crossover_conventional`, `IndexError`/`AttributeError`
of list indexing and `random.choice`.  `fuelExhausted` is the out-of-fuel
marker of the loop embedding; it is proved unreachable. -/
inductive EvoError where
  | emptyRange
  | invalidMode
  | assertionFailed
  | indexError
  | fuelExhausted
deriving DecidableEq

/-- The random draws consumed by one iteration of the `evolution` loop:
`o` is the `random.random()` branch draw, `cut`, `bit` and `choice` are the
raw draws backing `random.randint` inside `crossover_conventional`,
the mutation index draw, and `random.choice` respectively. -/
structure EvoDraw where
  o : ℚ
  cut : Nat
  bit : Nat
  choice : Nat

/-- `crossover_conventional` from `evolutionary_algorithm.py`.  `cutDraw` is
the raw draw behind `crossover_pt = random.randint(1, len(bool_vector) - 1)`.
The assert that the bool vector is at least as long as the discrete vector
comes first; the draw errors when its range is empty. -/
def crossover_conventional (parent1 parent2 : Individual) (cutDraw : Nat) :
    Except EvoError (Individual × Individual) :=
  let vb1 := parent1.bool_vector
  let vd1 := parent1.discrete_vector
  let vb2 := parent2.bool_vector
  let vd2 := parent2.discrete_vector
  if vd1.length ≤ vb1.length then
    if 2 ≤ vb1.length then
      let crossover_pt := 1 + cutDraw % (vb1.length - 1)
      let child_bool_1 := vb1.take crossover_pt ++ vb2.drop crossover_pt
      let child_bool_2 := vb2.take crossover_pt ++ vb1.drop crossover_pt
      if crossover_pt < vd1.length then
        Except.ok (⟨child_bool_1, vd1.take crossover_pt ++ vd2.drop crossover_pt⟩,
          ⟨child_bool_2, vd2.take crossover_pt ++ vd1.drop crossover_pt⟩)
      else
        Except.ok (⟨child_bool_1, vd1⟩, ⟨child_bool_2, vd2⟩)
    else Except.error EvoError.emptyRange
  else Except.error EvoError.assertionFailed

/-- `mutation_bool` from `evolutionary_algorithm.py`: flip the bit at index
`random.randint(0, len(bool_vector) - 1)`; the draw errors on an empty
vector. -/
def mutation_bool (parent : Individual) (bitDraw : Nat) : Except EvoError Individual :=
  let vb := parent.bool_vector
  if vb.length = 0 then Except.error EvoError.emptyRange
  else
    let bit := bitDraw % vb.length
    Except.ok ⟨vb.set bit (!vb.getD bit false), parent.discrete_vector⟩

/-- `mutation_discrete` from `evolutionary_algorithm.py`: replace the value at
index `random.randint(0, len(discrete_vector) - 1)` by
`random.choice(getattr(options, options.discrete_attributes[bit]))`. -/
def mutation_discrete (parent : Individual) (options : SizingOptions)
    (bitDraw choiceDraw : Nat) : Except EvoError Individual :=
  let vd := parent.discrete_vector
  if vd.length = 0 then Except.error EvoError.emptyRange
  else
    let bit := bitDraw % vd.length
    match options.discrete_attributes[bit]? with
    | none => Except.error EvoError.indexError
    | some name =>
      match options.getListAttr name with
      | none => Except.error EvoError.indexError
      | some allowed =>
        if allowed.length = 0 then Except.error EvoError.indexError
        else Except.ok ⟨parent.bool_vector, vd.set bit (allowed.getD (choiceDraw % allowed.length) 0)⟩

/-- Python exception propagation: evaluate a subcall; on an exception abort
with it, otherwise continue with the result. -/
def propagate {α β : Type} (x : Except EvoError α) (f : α → Except EvoError β) :
    Except EvoError β :=
  match x with
  | Except.error e => Except.error e
  | Except.ok a => f a

instance {ε α : Type} [DecidableEq ε] [DecidableEq α] : DecidableEq (Except ε α) :=
  fun x y =>
    match x, y with
    | Except.error a, Except.error b =>
      if h : a = b then Decidable.isTrue (congrArg Except.error h)
      else Decidable.isFalse (fun hc => h (by injection hc))
    | Except.ok a, Except.ok b =>
      if h : a = b then Decidable.isTrue (congrArg Except.ok h)
      else Decidable.isFalse (fun hc => h (by injection hc))
    | Except.error _, Except.ok _ => Decidable.isFalse (fun hc => Except.noConfusion hc)
    | Except.ok _, Except.error _ => Decidable.isFalse (fun hc => Except.noConfusion hc)

/-- The `while pop < len(parents)` loop of `evolution` from
`evolutionary_algorithm.py`.  Each iteration consumes one unit of fuel; since
the cursor `pop` advances by at least 1 per iteration, `len(parents)` units
suffice, which is proved as part of the termination claim
(`EvoError.fuelExhausted` is unreachable from `evolution`). -/
def evolution_loop (parents : List Individual) (r_cross r_mut : ℚ) (mode : String)
    (options : SizingOptions) (draws : Nat → EvoDraw) (sel : Nat) :
    Nat → List Individual → Nat → Except EvoError (List Individual)
  | pop, children, 0 =>
    if pop < parents.length then Except.error EvoError.fuelExhausted
    else Except.ok children
  | pop, children, fuel + 1 =>
    if pop < parents.length then
      let d := draws pop
      if d.o < r_cross then
        propagate (crossover_conventional
            (parents.getD ((sel + pop) % parents.length) default)
            (parents.getD ((sel + pop + 1) % parents.length) default) d.cut) fun pr =>
          evolution_loop parents r_cross r_mut mode options draws sel
            (pop + 2) (children ++ [pr.1, pr.2]) fuel
      else if d.o < r_cross + r_mut then
        propagate (if mode = "bool" then
            mutation_bool (parents.getD ((sel + pop) % parents.length) default) d.bit
          else if mode = "discrete" then
            mutation_discrete (parents.getD ((sel + pop) % parents.length) default)
              options d.bit d.choice
          else Except.error EvoError.invalidMode) fun child =>
          evolution_loop parents r_cross r_mut mode options draws sel
            (pop + 1) (children ++ [child]) fuel
      else
        evolution_loop parents r_cross r_mut mode options draws sel (pop + 1) children fuel
    else Except.ok children

/-- `evolution` from `evolutionary_algorithm.py`.  `selDraw` is the raw draw
behind `sel = random.randint(0, len(parents) - 1)`, which errors on an empty
parent list; `draws` supplies the per-iteration randomness, indexed by the
cursor value at the start of the iteration. -/
def evolution (parents : List Individual) (r_cross r_mut : ℚ) (mode : String)
    (options : SizingOptions) (selDraw : Nat) (draws : Nat → EvoDraw) :
    Except EvoError (List Individual) :=
  if parents.length = 0 then Except.error EvoError.emptyRange
  else
    evolution_loop parents r_cross r_mut mode options draws
      (selDraw % parents.length) 0 [] parents.length

/-- The `delete_index` list built by `unique` from
`evolutionary_algorithm.py`: all indices `j` for which some earlier index `i`
holds a value-equal individual. -/
def delete_index (individuals : List Individual) : List Nat :=
  (List.range individuals.length).flatMap fun i =>
    (List.range individuals.length).filter fun j =>
      decide (i < j) && decide (individuals.getD i default = individuals.getD j default)

/-- `unique` from `evolutionary_algorithm.py`: keep exactly the positions not
recorded in `delete_index`, in order. -/
def unique (individuals : List Individual) : List Individual :=
  ((List.range individuals.length).filter fun i =>
    decide (i ∉ delete_index individuals)).map fun i => individuals.getD i default

/-- The specification's description of `unique`: drop every individual that
is value-equal to an earlier individual, keeping the order of first
occurrences (`seen` accumulates the values already kept). -/
def keep_first_occurrences (seen : List Individual) :
    List Individual → List Individual
  | [] => []
  | x :: xs =>
    if x ∈ seen then keep_first_occurrences seen xs
    else x :: keep_first_occurrences (x :: seen) xs

/-- A `TimeSeriesRequest` sent to the UTSP, reduced to its payload fields
(the claims only pass these around as opaque handles). -/
structure TimeSeriesRequest where
  simulation_config : String
  provider_name : String
deriving DecidableEq

/-- `BuildingSizerRequest` from `building_sizer_algorithm.py` with its
dataclass defaults.  The external `archetype_config_` object is constant
across iterations and plays no role in the claims, so it is omitted. -/
structure BuildingSizerRequest where
  url : String
  api_key : String := ""
  building_sizer_version : String := ""
  hisim_version : String := ""
  remaining_iterations : Int := 3
  boolean_iterations : Int := 3
  discrete_iterations : Int := 9
  population_size : Int := 5
  crossover_probability : ℚ := 1/5
  mutation_probability : ℚ := 2/5
  options : SizingOptions := {}
  requisite_requests : List TimeSeriesRequest := []
deriving DecidableEq

/-- `BuildingSizerRequest.create_subsequent_request`: copy all fields except
the requisite requests and the decremented `remaining_iterations`. -/
def BuildingSizerRequest.create_subsequent_request (r : BuildingSizerRequest)
    (hisim_requests : List TimeSeriesRequest) : BuildingSizerRequest :=
  { r with
    remaining_iterations := r.remaining_iterations - 1
    requisite_requests := hisim_requests }

/-- `send_hisim_requests`: builds one `TimeSeriesRequest` per serialized HiSim
config (the network send and the result-file requirement are dropped). -/
def send_hisim_requests (configs : List String) (r : BuildingSizerRequest) :
    List TimeSeriesRequest :=
  configs.map fun c =>
    ⟨c, if r.hisim_version = "" then "hisim" else "hisim-" ++ r.hisim_version⟩

/-- `send_building_sizer_request`: the content of the next building sizer
request submitted to the UTSP (the network send is dropped). -/
def send_building_sizer_request (r : BuildingSizerRequest)
    (hisim_requests : List TimeSeriesRequest) : BuildingSizerRequest :=
  r.create_subsequent_request hisim_requests

/-- `trigger_next_iteration`: send the HiSim requests, then the request for
the next building sizer iteration. -/
def trigger_next_iteration (r : BuildingSizerRequest) (configs : List String) :
    BuildingSizerRequest :=
  send_building_sizer_request r (send_hisim_requests configs r)

/-- The bootstrap branch of `main` in `building_sizer_algorithm.py`: when the
incoming request has no requisite HiSim requests, random initial configs are
generated and `trigger_next_iteration` produces the successor request. -/
def main_bootstrap_next (r : BuildingSizerRequest) (initial_configs : List String) :
    BuildingSizerRequest :=
  trigger_next_iteration r initial_configs

/-- `BuildingSizerRequest` from `building_sizer_algorithm_no_utsp.py` with its
dataclass defaults (the external `archetype_config_` is omitted as above). -/
structure BuildingSizerRequestNU where
  remaining_iterations : Int := 3
  discrete_iterations : Int := 9
  population_size : Int := 5
  crossover_probability : ℚ := 1/5
  mutation_probability : ℚ := 2/5
  options : SizingOptions := {}
  requisite_hisim_config_paths : List String := []
deriving DecidableEq

/-- The cycle-detection scan of the driver loop in
`start_building_sizer_no_utsp.py`.  `seen` is the set of request hashes
already encountered; each successor request produced by an iteration is
hashed and checked before the loop continues; `false` models the raised
`RuntimeError` ("Detected a loop"), `true` a run completing all successors.
`get_hash` (a seeded Python string hash of the canonical JSON form) is
abstracted into the parameter `hashFn`; within one run it is a fixed
function of the request content. -/
def driver_loop_scan (hashFn : BuildingSizerRequestNU → Int) :
    List Int → List BuildingSizerRequestNU → Bool
  | _, [] => true
  | seen, r :: rest =>
    if hashFn r ∈ seen then false
    else driver_loop_scan hashFn (hashFn r :: seen) rest

/-- The driver loop of `start_building_sizer_no_utsp.py`, abstracted over the
sequence of successor requests its iterations produce: `previous_iterations`
starts as the singleton of the initial request's hash. -/
def driver_loop_ok (hashFn : BuildingSizerRequestNU → Int)
    (initial : BuildingSizerRequestNU) (successors : List BuildingSizerRequestNU) : Bool :=
  driver_loop_scan hashFn [hashFn initial] successors

/-! Concrete inputs used by counterexamples and witnesses. -/

/-- A rated individual with rating 5. -/
def riA : RatedIndividual := ⟨⟨[], []⟩, 5⟩

/-- A rated individual with rating 1. -/
def riB : RatedIndividual := ⟨⟨[], []⟩, 1⟩

/-- An initial request with all dataclass defaults, in particular
`remaining_iterations = 3` and no requisite requests. -/
def exRequest : BuildingSizerRequest := { url := "http://localhost:443" }

/-- A parent whose discrete genes already carry catalog values of the default
schema. -/
def parentSame : Individual := ⟨[true, false], [600, 3/10]⟩

/-- A parent with one bool gene and one discrete gene. -/
def parentOne : Individual := ⟨[true], [600]⟩

/-- The result of flipping `parentOne`'s only bool gene. -/
def childBoolOne : Individual := ⟨[false], [600]⟩

/-- The result of redrawing `parentOne`'s only discrete gene as 1200. -/
def childDiscOne : Individual := ⟨[true], [1200]⟩

/-- An individual with two bool genes and no discrete genes: its bool length
matches the default schema while its discrete length does not. -/
def mismatchedIndividual : Individual := ⟨[true, false], []⟩

/-- The default schema with the `pv_peak_power` catalog emptied. -/
def emptyCatalogOptions : SizingOptions := { pv_peak_power := [] }

/-- The attribute names of the external HiSim `SystemConfig` class that are
relevant here: the names used by the default schema all exist on it. -/
def systemConfigAttrs : List String :=
  ["pv_included", "battery_included", "pv_peak_power", "battery_capacity", "buffer_volume"]

/-- A schema naming a bool attribute that `SystemConfig` does not have. -/
def badOptions : SizingOptions := { bool_attributes := ["windmill_included"] }

/-- First crossover parent. -/
def crossPar1 : Individual := ⟨[true, false], [600]⟩

/-- Second crossover parent. -/
def crossPar2 : Individual := ⟨[false, true], [1200]⟩

/-- First child of `crossover_conventional crossPar1 crossPar2 0`. -/
def crossChild1 : Individual := ⟨[true, true], [600]⟩

/-- Second child of `crossover_conventional crossPar1 crossPar2 0`. -/
def crossChild2 : Individual := ⟨[false, false], [1200]⟩

/-- A configuration whose schema attributes carry values of the default
schema's catalogs (as produced by the random-population generator). -/
def roundTripConfig : SystemConfig := fun n =>
  if n = "pv_peak_power" then GeneValue.q 600
  else if n = "battery_capacity" then GeneValue.q (3/10)
  else GeneValue.b true

/-- A draw sequence whose branch draw 0 always selects the first branch whose
probability is positive. -/
def evoDrawsZero : Nat → EvoDraw := fun _ => ⟨0, 0, 0, 0⟩

/-! Claim C3: the bootstrap transition and the iteration budget. -/

/-- Counterexample to claim C3: for the initial request (no pending handles,
`remaining_iterations = 3`) the bootstrap branch of `main` produces a
successor request with `remaining_iterations = 2`, not 3 — the initiating
call is charged against the iteration budget. -/
theorem bootstrap_budget_not_preserved :
    exRequest.requisite_requests = [] ∧
    exRequest.remaining_iterations = 3 ∧
    (main_bootstrap_next exRequest []).remaining_iterations = 2 := by
  refine ⟨rfl, rfl, by decide⟩

/-- Claim C3 (amended): the BOOTSTRAP transition (a request with no pending
evaluation handles) produces a successor request whose remaining iteration
budget is decremented by one, exactly as in every other iteration:
`create_subsequent_request` decrements unconditionally. -/
theorem bootstrap_decrements_budget (r : BuildingSizerRequest) (configs : List String)
    (_h : r.requisite_requests = []) :
    (main_bootstrap_next r configs).remaining_iterations = r.remaining_iterations - 1 := rfl

/-- Witness for `bootstrap_decrements_budget` at the default initial request. -/
theorem bootstrap_decrements_budget_witness :
    (main_bootstrap_next exRequest []).remaining_iterations =
      exRequest.remaining_iterations - 1 :=
  bootstrap_decrements_budget exRequest [] rfl

/-! Claim C7: crossover preserves the total gene multiset. -/

/-- Exchanging tails at a common cut point preserves the combined multiset. -/
theorem cross_cut_multiset_eq {α : Type} (a b : List α) (n : Nat) :
    ((a.take n ++ b.drop n : List α) : Multiset α) +
      ((b.take n ++ a.drop n : List α) : Multiset α) = ↑a + ↑b := by
  have ha : (a : Multiset α) = ↑(a.take n) + ↑(a.drop n) := by
    rw [Multiset.coe_add, List.take_append_drop]
  have hb : (b : Multiset α) = ↑(b.take n) + ↑(b.drop n) := by
    rw [Multiset.coe_add, List.take_append_drop]
  rw [← Multiset.coe_add, ← Multiset.coe_add, ha, hb]
  abel

/-- Claim C7: for every pair of parents accepted by the crossover
preconditions and every cut draw, the multiset union of the children's gene
vectors equals that of the parents', separately for the boolean and the
discrete parts. -/
theorem crossover_preserves_gene_multiset (p1 p2 : Individual) (cutDraw : Nat)
    (c1 c2 : Individual)
    (h : crossover_conventional p1 p2 cutDraw = Except.ok (c1, c2)) :
    ((c1.bool_vector : Multiset Bool) + ↑c2.bool_vector =
      ↑p1.bool_vector + ↑p2.bool_vector) ∧
    ((c1.discrete_vector : Multiset ℚ) + ↑c2.discrete_vector =
      ↑p1.discrete_vector + ↑p2.discrete_vector) := by
  simp only [crossover_conventional] at h
  split_ifs at h with h1 h2 h3
  · injection h with hp
    rw [Prod.mk.injEq] at hp
    obtain ⟨hc1, hc2⟩ := hp
    subst hc1; subst hc2
    exact ⟨cross_cut_multiset_eq _ _ _, cross_cut_multiset_eq _ _ _⟩
  · injection h with hp
    rw [Prod.mk.injEq] at hp
    obtain ⟨hc1, hc2⟩ := hp
    subst hc1; subst hc2
    exact ⟨cross_cut_multiset_eq _ _ _, rfl⟩

/-- Witness for `crossover_preserves_gene_multiset` at concrete parents and
cut draw 0. -/
theorem crossover_preserves_gene_multiset_witness :
    ((crossChild1.bool_vector : Multiset Bool) + ↑crossChild2.bool_vector =
      ↑crossPar1.bool_vector + ↑crossPar2.bool_vector) ∧
    ((crossChild1.discrete_vector : Multiset ℚ) + ↑crossChild2.discrete_vector =
      ↑crossPar1.discrete_vector + ↑crossPar2.discrete_vector) :=
  crossover_preserves_gene_multiset crossPar1 crossPar2 0 crossChild1 crossChild2 rfl

/-! Claim C8: schema validation at construction. -/

/-- Counterexample to claim C8: a schema whose `pv_peak_power` catalog is
empty passes `__post_init__` — emptiness of allowed-value lists is not
checked at construction. -/
theorem post_init_accepts_empty_catalog :
    post_init_ok systemConfigAttrs emptyCatalogOptions = true ∧
    "pv_peak_power" ∈ emptyCatalogOptions.discrete_attributes ∧
    emptyCatalogOptions.getListAttr "pv_peak_power" = some [] := by
  refine ⟨by decide, by decide, by decide⟩

/-- Claim C8 (amended): `__post_init__` rejects a schema whenever some name
in `bool_attributes ++ discrete_attributes` is not an attribute of the
downstream `SystemConfig` type, or some name in `discrete_attributes` is not
a field of `SizingOptions` itself; it does not check catalog non-emptiness. -/
theorem post_init_rejects_unknown_attributes (attrs : List String) (o : SizingOptions)
    (h : (∃ n ∈ o.bool_attributes ++ o.discrete_attributes, attrs.contains n = false) ∨
      (∃ n ∈ o.discrete_attributes, sizingOptionsHasAttr n = false)) :
    post_init_ok attrs o = false := by
  cases hpi : post_init_ok attrs o with
  | false => rfl
  | true =>
    exfalso
    unfold post_init_ok at hpi
    rw [Bool.and_eq_true, List.all_eq_true, List.all_eq_true] at hpi
    rcases h with ⟨n, hn, hfalse⟩ | ⟨n, hn, hfalse⟩
    · have := hpi.1 n hn
      rw [hfalse] at this
      exact Bool.false_ne_true this
    · have := hpi.2 n hn
      rw [hfalse] at this
      exact Bool.false_ne_true this

/-- Witness for `post_init_rejects_unknown_attributes`: a schema naming a
bool attribute that `SystemConfig` does not have is rejected. -/
theorem post_init_rejects_unknown_attributes_witness :
    post_init_ok [] badOptions = false :=
  post_init_rejects_unknown_attributes [] badOptions
    (Or.inl ⟨"windmill_included", by decide, by decide⟩)

/-! Claim C9: cycle detection in the driver loop. -/

/-- The cycle-detection scan completes without raising exactly when the
successor hashes are pairwise distinct and none of them was seen before. -/
theorem driver_loop_scan_true_iff (hashFn : BuildingSizerRequestNU → Int)
    (seen : List Int) (ss : List BuildingSizerRequestNU) :
    driver_loop_scan hashFn seen ss = true ↔
      (ss.map hashFn).Nodup ∧ ∀ h ∈ ss.map hashFn, h ∉ seen := by
  induction ss generalizing seen with
  | nil => simp [driver_loop_scan]
  | cons r rest ih =>
    simp only [driver_loop_scan, List.map_cons, List.nodup_cons, List.mem_cons]
    split_ifs with hmem
    · constructor
      · intro hfalse; exact absurd hfalse (by simp)
      · rintro ⟨-, hall⟩
        exact absurd hmem (hall (hashFn r) (Or.inl rfl))
    · rw [ih]
      constructor
      · rintro ⟨hnodup, hall⟩
        refine ⟨⟨fun hin => ?_, hnodup⟩, ?_⟩
        · have := hall (hashFn r) hin
          simp [List.mem_cons] at this
        · rintro h (rfl | hin)
          · exact hmem
          · have := hall h hin
            simp only [List.mem_cons, not_or] at this
            exact this.2
      · rintro ⟨⟨hnotin, hnodup⟩, hall⟩
        refine ⟨hnodup, fun h hin => ?_⟩
        simp only [List.mem_cons, not_or]
        constructor
        · rintro rfl; exact hnotin hin
        · exact hall h (Or.inr hin)

/-- Claim C9: the driver loop raises its fatal cycle-detection error
(`RuntimeError`, modelled as result `false`) exactly when some successor
request's content hash repeats a hash already seen in the run (the initial
request's hash, or an earlier successor's); otherwise it never stops a run. -/
theorem driver_loop_detects_cycles (hashFn : BuildingSizerRequestNU → Int)
    (initial : BuildingSizerRequestNU) (successors : List BuildingSizerRequestNU) :
    driver_loop_ok hashFn initial successors = false ↔
      ¬ (hashFn initial :: successors.map hashFn).Nodup := by
  rw [← Bool.not_eq_true, driver_loop_ok, driver_loop_scan_true_iff]
  rw [List.nodup_cons]
  constructor
  · intro hne hcon
    apply hne
    refine ⟨hcon.2, fun h hin => ?_⟩
    simp only [List.mem_singleton]
    rintro rfl
    exact hcon.1 hin
  · intro hne hcon
    apply hne
    refine ⟨fun hin => ?_, hcon.1⟩
    have := hcon.2 (hashFn initial) hin
    simp at this

/-! Claim C4: placement of the decode length checks. -/

/-- Counterexample to claim C4: for an individual whose bool vector matches
the default schema but whose discrete vector does not, the decode fails its
discrete length check only after both bool attributes have already been
written — a failing length check with a non-empty write trace. -/
theorem decode_writes_before_failed_check :
    (decode_writes mismatchedIndividual {}).2 = false ∧
    (decode_writes mismatchedIndividual {}).1 =
      [("pv_included", GeneValue.b true), ("battery_included", GeneValue.b false)] := by
  refine ⟨by decide, by decide⟩

/-- Claim C4 (amended): `create_config_from_individual` fails exactly when a
vector length differs from the matching schema attribute count.  The
bool-length check precedes every write, but the discrete-length check runs
only after all bool attributes are written: a bool-length mismatch leaves the
config untouched, while a discrete-length mismatch leaves exactly the bool
attributes written. -/
theorem decode_length_check_placement (ind : Individual) (o : SizingOptions) :
    ((decode_writes ind o).2 = false ↔
      (o.bool_attributes.length ≠ ind.bool_vector.length ∨
        o.discrete_attributes.length ≠ ind.discrete_vector.length)) ∧
    (o.bool_attributes.length ≠ ind.bool_vector.length →
      (decode_writes ind o).1 = []) ∧
    (o.bool_attributes.length = ind.bool_vector.length →
      o.discrete_attributes.length ≠ ind.discrete_vector.length →
      (decode_writes ind o).1 = o.bool_attributes.zip (ind.bool_vector.map GeneValue.b)) := by
  unfold decode_writes
  split_ifs with h1 h2 <;> simp_all

/-! Claim C2: what one mutation call changes. -/

/-- Counterexample to claim C2: a discrete mutation draw that redraws the
current catalog value returns a child value-equal to its parent — zero vector
positions change, not exactly one. -/
theorem mutation_discrete_can_return_parent :
    mutation_discrete parentSame {} 0 0 = Except.ok parentSame := rfl

/-- `List.getD` after `List.set` at the written index. -/
theorem getD_set_self {α : Type} :
    ∀ (l : List α) (i : Nat) (v d : α), i < l.length → (l.set i v).getD i d = v
  | [], _, _, _, h => absurd h (by simp)
  | _ :: _, 0, _, _, _ => rfl
  | _ :: l, i + 1, v, d, h => getD_set_self l i v d (by simpa using h)

/-- `List.getD` after `List.set` at any other index. -/
theorem getD_set_ne {α : Type} :
    ∀ (l : List α) (i j : Nat) (v d : α), j ≠ i → (l.set i v).getD j d = l.getD j d
  | [], _, _, _, _, _ => rfl
  | _ :: _, 0, 0, _, _, h => absurd rfl h
  | _ :: _, 0, _ + 1, _, _, _ => rfl
  | _ :: _, _ + 1, 0, _, _, _ => rfl
  | _ :: l, i + 1, j + 1, v, d, h => getD_set_ne l i j v d (fun he => h (by rw [he]))

/-- Claim C2 (amended): a successful `mutation_bool` call changes exactly one
position of the bool vector (the drawn bit is flipped, all others kept, the
discrete vector untouched); a successful `mutation_discrete` call redraws
exactly one drawn position of the discrete vector from that attribute's
catalog, leaving every other position and the bool vector untouched — so the
child differs from the parent in at most one position, with equality possible
when the redrawn catalog value coincides with the old one. -/
theorem mutation_changes_at_most_one_gene (parent : Individual) (o : SizingOptions)
    (bitDraw choiceDraw : Nat) (childB childD : Individual) :
    (mutation_bool parent bitDraw = Except.ok childB →
      childB.discrete_vector = parent.discrete_vector ∧
      childB.bool_vector.length = parent.bool_vector.length ∧
      ∃ i, i < parent.bool_vector.length ∧
        childB.bool_vector.getD i false = !(parent.bool_vector.getD i false) ∧
        ∀ j, j ≠ i → childB.bool_vector.getD j false = parent.bool_vector.getD j false) ∧
    (mutation_discrete parent o bitDraw choiceDraw = Except.ok childD →
      childD.bool_vector = parent.bool_vector ∧
      childD.discrete_vector.length = parent.discrete_vector.length ∧
      ∃ i, i < parent.discrete_vector.length ∧
        (∀ j, j ≠ i → childD.discrete_vector.getD j 0 = parent.discrete_vector.getD j 0) ∧
        ∃ name allowed, o.discrete_attributes[i]? = some name ∧
          o.getListAttr name = some allowed ∧
          childD.discrete_vector.getD i 0 ∈ allowed) := by
  constructor
  · intro h
    simp only [mutation_bool] at h
    split_ifs at h with h0
    injection h with hc
    subst hc
    have hlen : 0 < parent.bool_vector.length := Nat.pos_of_ne_zero h0
    have hbit : bitDraw % parent.bool_vector.length < parent.bool_vector.length :=
      Nat.mod_lt _ hlen
    refine ⟨rfl, by simp, bitDraw % parent.bool_vector.length, hbit, ?_, ?_⟩
    · exact getD_set_self _ _ _ _ hbit
    · intro j hj
      exact getD_set_ne _ _ _ _ _ hj
  · intro h
    simp only [mutation_discrete] at h
    split_ifs at h with h0
    split at h
    · exact Except.noConfusion h
    · rename_i name hname
      split at h
      · exact Except.noConfusion h
      · rename_i allowed hattr
        split_ifs at h with hempty
        injection h with hc
        subst hc
        have hlen : 0 < parent.discrete_vector.length := Nat.pos_of_ne_zero h0
        have hbit : bitDraw % parent.discrete_vector.length < parent.discrete_vector.length :=
          Nat.mod_lt _ hlen
        refine ⟨rfl, by simp, bitDraw % parent.discrete_vector.length, hbit,
          fun j hj => getD_set_ne _ _ _ _ _ hj, name, allowed, hname, hattr, ?_⟩
        rw [getD_set_self _ _ _ _ hbit]
        have hal : 0 < allowed.length := Nat.pos_of_ne_zero hempty
        have hch : choiceDraw % allowed.length < allowed.length := Nat.mod_lt _ hal
        rw [List.getD_eq_getElem _ _ hch]
        exact List.getElem_mem hch

/-! Claim C5: encode/decode round trip. -/

/-- `l.zip (l.map f)` pairs each element with its image. -/
theorem zip_map_self {α β : Type} (l : List α) (f : α → β) :
    l.zip (l.map f) = l.map fun a => (a, f a) := by
  induction l with
  | nil => rfl
  | cons x xs ih => simp [ih]

/-- Evaluating a write sequence all of whose writes store `g` of their key:
a written key reads back as `g` of it, any other key is untouched. -/
theorem applyWrites_getD (g : SystemConfig) :
    ∀ (ws : List (String × GeneValue)) (c0 : SystemConfig) (n : String),
      (∀ p ∈ ws, p.2 = g p.1) →
      applyWrites c0 ws n = if n ∈ ws.map Prod.fst then g n else c0 n := by
  intro ws
  induction ws with
  | nil => intro c0 n _; simp [applyWrites]
  | cons p ws ih =>
    intro c0 n h
    have hp : p.2 = g p.1 := h p (List.mem_cons_self _ _)
    have hstep : applyWrites c0 (p :: ws) = applyWrites (Function.update c0 p.1 p.2) ws := rfl
    rw [hstep, ih _ n (fun q hq => h q (List.mem_cons_of_mem _ hq))]
    by_cases hn : n ∈ ws.map Prod.fst
    · simp [hn]
    · by_cases hnp : n = p.1
      · subst hnp
        simp [hn, hp, Function.update_same]
      · simp [hn, hnp, Function.update_noteq hnp]

/-- Claim C5: for every configuration whose schema attributes carry values of
the matching kinds (boolean flags for `bool_attributes`, discrete values for
`discrete_attributes`, as every configuration produced by the
random-population generator does), decoding the individual obtained by
encoding the configuration succeeds and agrees with the original
configuration on every schema attribute. -/
theorem encode_decode_roundtrip (c dflt : SystemConfig) (o : SizingOptions)
    (hb : ∀ n ∈ o.bool_attributes, ∃ x, c n = GeneValue.b x)
    (hd : ∀ n ∈ o.discrete_attributes, ∃ x, c n = GeneValue.q x) :
    ∃ cfg, create_config_from_individual dflt (create_individual_from_config c o) o =
        some cfg ∧
      ∀ n, n ∈ o.bool_attributes ∨ n ∈ o.discrete_attributes → cfg n = c n := by
  have hwrites :
      decode_writes (create_individual_from_config c o) o =
        ((o.bool_attributes.map fun m => (m, GeneValue.b (c m).asBool)) ++
          (o.discrete_attributes.map fun m => (m, GeneValue.q (c m).asQ)), true) := by
    unfold decode_writes create_individual_from_config
    rw [if_pos (by simp), if_pos (by simp)]
    rw [List.map_map, List.map_map, zip_map_self, zip_map_self]
    rfl
  refine ⟨applyWrites dflt
    ((o.bool_attributes.map fun m => (m, GeneValue.b (c m).asBool)) ++
      (o.discrete_attributes.map fun m => (m, GeneValue.q (c m).asQ))), ?_, ?_⟩
  · unfold create_config_from_individual
    rw [hwrites]
  · intro n hn
    have hall : ∀ p ∈ (o.bool_attributes.map fun m => (m, GeneValue.b (c m).asBool)) ++
        (o.discrete_attributes.map fun m => (m, GeneValue.q (c m).asQ)), p.2 = c p.1 := by
      intro p hp
      rcases List.mem_append.mp hp with hmem | hmem
      · obtain ⟨m, hm, rfl⟩ := List.mem_map.mp hmem
        obtain ⟨x, hx⟩ := hb m hm
        simp [hx, GeneValue.asBool]
      · obtain ⟨m, hm, rfl⟩ := List.mem_map.mp hmem
        obtain ⟨x, hx⟩ := hd m hm
        simp [hx, GeneValue.asQ]
    rw [applyWrites_getD c _ dflt n hall]
    have hkeys : ((o.bool_attributes.map fun m => (m, GeneValue.b (c m).asBool)) ++
        (o.discrete_attributes.map fun m => (m, GeneValue.q (c m).asQ))).map Prod.fst =
          o.bool_attributes ++ o.discrete_attributes := by
      simp only [List.map_append, List.map_map]
      rw [show (Prod.fst ∘ fun m => (m, GeneValue.b (c m).asBool)) = id from rfl,
        show (Prod.fst ∘ fun m => (m, GeneValue.q (c m).asQ)) = id from rfl,
        List.map_id, List.map_id]
    rw [hkeys, if_pos (List.mem_append.mpr hn)]

/-- Witness for `encode_decode_roundtrip` at a concrete configuration carrying
default-catalog values, with the default schema. -/
theorem encode_decode_roundtrip_witness :
    ∃ cfg, create_config_from_individual roundTripConfig
        (create_individual_from_config roundTripConfig ({} : SizingOptions)) {} =
          some cfg ∧
      ∀ n, n ∈ ({} : SizingOptions).bool_attributes ∨
          n ∈ ({} : SizingOptions).discrete_attributes →
        cfg n = roundTripConfig n :=
  encode_decode_roundtrip roundTripConfig roundTripConfig {}
    (by
      intro n hn
      have hn' : n ∈ ["pv_included", "battery_included"] := hn
      simp only [List.mem_cons, List.not_mem_nil, or_false] at hn'
      rcases hn' with rfl | rfl
      · exact ⟨true, rfl⟩
      · exact ⟨true, rfl⟩)
    (by
      intro n hn
      have hn' : n ∈ ["pv_peak_power", "battery_capacity"] := hn
      simp only [List.mem_cons, List.not_mem_nil, or_false] at hn'
      rcases hn' with rfl | rfl
      · exact ⟨600, rfl⟩
      · exact ⟨3/10, rfl⟩)

/-! Claim C6: `unique` keeps exactly the first occurrences. -/

/-- Membership in the `delete_index` list: exactly the in-range positions
preceded by a value-equal position. -/
theorem mem_delete_index (xs : List Individual) (j : Nat) :
    j ∈ delete_index xs ↔
      j < xs.length ∧ ∃ i, i < j ∧ xs.getD i default = xs.getD j default := by
  unfold delete_index
  simp only [List.mem_flatMap, List.mem_filter, List.mem_range, Bool.and_eq_true,
    decide_eq_true_eq]
  constructor
  · rintro ⟨i, _, hj, hij, heq⟩
    exact ⟨hj, i, hij, heq⟩
  · rintro ⟨hj, i, hij, heq⟩
    exact ⟨i, lt_trans hij hj, hj, hij, heq⟩

/-- `unique` over a snoc: the last element is kept iff it does not already
occur earlier. -/
theorem unique_append (ys : List Individual) (y : Individual) :
    unique (ys ++ [y]) = unique ys ++ (if y ∈ ys then [] else [y]) := by
  have hlen : (ys ++ [y]).length = ys.length + 1 := by simp
  have hgetD : ∀ i, i < ys.length → (ys ++ [y]).getD i default = ys.getD i default :=
    fun i hi => List.getD_append _ _ _ _ hi
  have hgetDn : (ys ++ [y]).getD ys.length default = y := by
    rw [List.getD_append_right _ _ _ _ (le_refl _), Nat.sub_self]
    rfl
  have hdel : ∀ i, i < ys.length →
      (i ∈ delete_index (ys ++ [y]) ↔ i ∈ delete_index ys) := by
    intro i hi
    rw [mem_delete_index, mem_delete_index, hlen]
    constructor
    · rintro ⟨-, k, hk, heq⟩
      refine ⟨hi, k, hk, ?_⟩
      rw [← hgetD k (lt_trans hk hi), ← hgetD i hi]
      exact heq
    · rintro ⟨-, k, hk, heq⟩
      refine ⟨by omega, k, hk, ?_⟩
      rw [hgetD k (lt_trans hk hi), hgetD i hi]
      exact heq
  have hdeln : ys.length ∈ delete_index (ys ++ [y]) ↔ y ∈ ys := by
    rw [mem_delete_index, hlen]
    constructor
    · rintro ⟨-, k, hk, heq⟩
      rw [hgetD k hk, hgetDn] at heq
      rw [← heq, List.getD_eq_getElem _ _ hk]
      exact List.getElem_mem hk
    · intro hy
      obtain ⟨k, hk, hky⟩ := List.mem_iff_getElem.mp hy
      refine ⟨by omega, k, hk, ?_⟩
      rw [hgetD k hk, hgetDn, List.getD_eq_getElem _ _ hk, hky]
  unfold unique
  rw [hlen, List.range_succ, List.filter_append, List.map_append]
  congr 1
  · have hfil : (List.range ys.length).filter
        (fun i => decide (i ∉ delete_index (ys ++ [y]))) =
          (List.range ys.length).filter (fun i => decide (i ∉ delete_index ys)) :=
      List.filter_congr (by
        intro i hi
        rw [List.mem_range] at hi
        rw [decide_eq_decide]
        exact not_congr (hdel i hi))
    rw [hfil]
    refine List.map_congr_left ?_
    intro i hi
    rw [List.mem_filter, List.mem_range] at hi
    exact hgetD i hi.1
  · by_cases hy : y ∈ ys
    · rw [if_pos hy]
      have hone : (List.filter (fun i => decide (i ∉ delete_index (ys ++ [y])))
          [ys.length]) = [] := by
        simp [hdeln, hy]
      rw [hone]
      rfl
    · rw [if_neg hy]
      have hone : (List.filter (fun i => decide (i ∉ delete_index (ys ++ [y])))
          [ys.length]) = [ys.length] := by
        simp [hdeln, hy]
      rw [hone]
      simp [hgetDn]

/-- `keep_first_occurrences` over a snoc: the last element is kept iff it is
neither in `seen` nor occurs in the prefix. -/
theorem keep_first_append (y : Individual) : ∀ (ys seen : List Individual),
    keep_first_occurrences seen (ys ++ [y]) =
      keep_first_occurrences seen ys ++ (if y ∈ seen ∨ y ∈ ys then [] else [y]) := by
  intro ys
  induction ys with
  | nil =>
    intro seen
    by_cases h : y ∈ seen <;> simp [keep_first_occurrences, h]
  | cons x xs ih =>
    intro seen
    rw [show (x :: xs) ++ [y] = x :: (xs ++ [y]) from rfl]
    simp only [keep_first_occurrences]
    by_cases hx : x ∈ seen
    · rw [if_pos hx, if_pos hx, ih seen]
      congr 1
      refine if_congr ?_ rfl rfl
      simp only [List.mem_cons]
      constructor
      · tauto
      · rintro (h1 | rfl | h3)
        · exact Or.inl h1
        · exact Or.inl hx
        · exact Or.inr h3
    · rw [if_neg hx, if_neg hx, ih (x :: seen), List.cons_append]
      congr 2
      refine if_congr ?_ rfl rfl
      simp only [List.mem_cons]
      tauto

/-- The kept list has no duplicates and is disjoint from `seen`. -/
theorem keep_first_nodup : ∀ (l seen : List Individual),
    (keep_first_occurrences seen l).Nodup ∧
      ∀ x ∈ keep_first_occurrences seen l, x ∉ seen := by
  intro l
  induction l with
  | nil => intro seen; simp [keep_first_occurrences]
  | cons x xs ih =>
    intro seen
    simp only [keep_first_occurrences]
    by_cases hx : x ∈ seen
    · rw [if_pos hx]
      exact ih seen
    · rw [if_neg hx]
      obtain ⟨hnd, hns⟩ := ih (x :: seen)
      constructor
      · rw [List.nodup_cons]
        exact ⟨fun hmem => (hns x hmem) (List.mem_cons_self _ _), hnd⟩
      · intro z hz
        rcases List.mem_cons.mp hz with rfl | hz2
        · exact hx
        · exact fun hzs => (hns z hz2) (List.mem_cons_of_mem _ hzs)

/-- On a duplicate-free list disjoint from `seen`, `keep_first_occurrences`
is the identity. -/
theorem keep_first_of_nodup : ∀ (l seen : List Individual), l.Nodup →
    (∀ x ∈ l, x ∉ seen) → keep_first_occurrences seen l = l := by
  intro l
  induction l with
  | nil => intro seen _ _; rfl
  | cons x xs ih =>
    intro seen hnd hdisj
    rw [List.nodup_cons] at hnd
    simp only [keep_first_occurrences]
    rw [if_neg (hdisj x (List.mem_cons_self _ _))]
    congr 1
    refine ih (x :: seen) hnd.2 ?_
    intro z hz hmem
    rcases List.mem_cons.mp hmem with rfl | hmem2
    · exact hnd.1 hz
    · exact hdisj z (List.mem_cons_of_mem _ hz) hmem2

/-- `keep_first_occurrences` never lengthens the list. -/
theorem keep_first_length : ∀ (l seen : List Individual),
    (keep_first_occurrences seen l).length ≤ l.length := by
  intro l
  induction l with
  | nil => intro seen; simp [keep_first_occurrences]
  | cons x xs ih =>
    intro seen
    simp only [keep_first_occurrences]
    split_ifs
    · exact le_trans (ih seen) (Nat.le_succ _)
    · simpa using ih (x :: seen)

/-- The index-based `unique` of the source computes first-occurrence
deduplication. -/
theorem unique_eq_keep_first (xs : List Individual) :
    unique xs = keep_first_occurrences [] xs := by
  induction xs using List.reverseRecOn with
  | nil => rfl
  | append_singleton ys y ih =>
    rw [unique_append, keep_first_append, ih]
    congr 1
    refine if_congr ?_ rfl rfl
    simp

/-- Claim C6: `unique` removes exactly the individuals value-equal to an
earlier individual, preserving the order of first occurrence; consequently it
is idempotent and never lengthens the list. -/
theorem unique_first_occurrences (xs : List Individual) :
    unique xs = keep_first_occurrences [] xs ∧
    unique (unique xs) = unique xs ∧
    (unique xs).length ≤ xs.length := by
  have hk := unique_eq_keep_first xs
  refine ⟨hk, ?_, ?_⟩
  · rw [hk, unique_eq_keep_first]
    exact keep_first_of_nodup _ [] (keep_first_nodup xs []).1
      (fun x _ => List.not_mem_nil x)
  · rw [hk]
    exact keep_first_length xs []

/-! Claim C1: selection returns the true top-k. -/

/-- Counterexample to claim C1 as stated for an arbitrary `population_size`
int: with `population_size = -1` Python's slice `[:-1]` drops only the last
element, so `selection` on two rated individuals returns one element, which
is more than `min(-1, 2) = -1`. -/
theorem selection_negative_population_size :
    ¬ (((selection_core [riA, riB] (-1)).length : Int) ≤
        min (-1 : Int) (([riA, riB] : List RatedIndividual).length : Int)) := by
  decide

/-- Claim C1 (amended): for every non-negative `population_size` k and every
shuffle outcome `out` (any permutation of the sorted-and-truncated list),
`selection` returns at most `min k (len rated)` elements and every returned
rating is at least every non-returned rating. -/
theorem selection_returns_top_k (rated : List RatedIndividual) (k : Int)
    (out : List RatedIndividual) (hk : 0 ≤ k)
    (hout : out.Perm (selection_core rated k)) :
    (out.length : Int) ≤ min k (rated.length : Int) ∧
    ∀ x ∈ out, ∀ y ∈ ((rated : Multiset RatedIndividual) - ↑out),
      y.rating ≤ x.rating := by
  have hperm : (sorted_descending rated).Perm rated := List.perm_insertionSort ratedGE rated
  have hslen : (sorted_descending rated).length = rated.length := hperm.length_eq
  have hcore : selection_core rated k = (sorted_descending rated).take k.toNat := by
    unfold selection_core python_take
    rw [if_pos hk]
  constructor
  · have h1 : out.length = min k.toNat rated.length := by
      rw [hout.length_eq, hcore, List.length_take, hslen]
    omega
  · intro x hx y hy
    have hsplit : sorted_descending rated =
        (sorted_descending rated).take k.toNat ++ (sorted_descending rated).drop k.toNat :=
      (List.take_append_drop _ _).symm
    have hcoe_rated : (rated : Multiset RatedIndividual) =
        ↑((sorted_descending rated).take k.toNat) +
          ↑((sorted_descending rated).drop k.toNat) := by
      rw [Multiset.coe_add, List.take_append_drop]
      exact (Multiset.coe_eq_coe.mpr hperm).symm
    have hcoe_out : (out : Multiset RatedIndividual) =
        ↑((sorted_descending rated).take k.toNat) := by
      rw [Multiset.coe_eq_coe]
      exact hcore ▸ hout
    rw [hcoe_rated, hcoe_out, add_tsub_cancel_left, Multiset.mem_coe] at hy
    have hxin : x ∈ (sorted_descending rated).take k.toNat := by
      rw [hout.mem_iff, hcore] at hx
      exact hx
    have hsorted : List.Pairwise ratedGE (sorted_descending rated) :=
      List.sorted_insertionSort ratedGE rated
    rw [hsplit, List.pairwise_append] at hsorted
    exact hsorted.2.2 x hxin y hy

/-- Witness for `selection_returns_top_k` with `k = 1` on two rated
individuals, taking the identity shuffle. -/
theorem selection_returns_top_k_witness :
    ((selection_core [riA, riB] 1).length : Int) ≤
      min (1 : Int) (([riA, riB] : List RatedIndividual).length : Int) ∧
    ∀ x ∈ selection_core [riA, riB] 1,
      ∀ y ∈ (([riA, riB] : List RatedIndividual) : Multiset RatedIndividual) -
          ↑(selection_core [riA, riB] 1),
        y.rating ≤ x.rating :=
  selection_returns_top_k [riA, riB] 1 (selection_core [riA, riB] 1) (by decide)
    (List.Perm.refl _)

/-! Claim C10: totality and size bound of the evolution step. -/

/-- `crossover_conventional` never produces the fuel marker. -/
theorem crossover_ne_fuel (p1 p2 : Individual) (c : Nat) :
    crossover_conventional p1 p2 c ≠ Except.error EvoError.fuelExhausted := by
  simp only [crossover_conventional]
  split_ifs <;> simp

/-- `mutation_bool` never produces the fuel marker. -/
theorem mutation_bool_ne_fuel (p : Individual) (b : Nat) :
    mutation_bool p b ≠ Except.error EvoError.fuelExhausted := by
  simp only [mutation_bool]
  split_ifs <;> simp

/-- `mutation_discrete` never produces the fuel marker. -/
theorem mutation_discrete_ne_fuel (p : Individual) (o : SizingOptions) (b c : Nat) :
    mutation_discrete p o b c ≠ Except.error EvoError.fuelExhausted := by
  simp only [mutation_discrete]
  split_ifs with h0
  · simp
  · split
    · simp
    · split
      · simp
      · split_ifs <;> simp

/-- `propagate` on an exception aborts with it. -/
theorem propagate_error {α β : Type} (e : EvoError) (f : α → Except EvoError β) :
    propagate (Except.error e) f = Except.error e := rfl

/-- `propagate` on a successful subcall continues with its result. -/
theorem propagate_ok {α β : Type} (a : α) (f : α → Except EvoError β) :
    propagate (Except.ok a) f = f a := rfl

/-- Invariant of the evolution loop: with at least `len(parents) - pop` fuel
the loop never exhausts its fuel, and every successful run appends at most
`len(parents) + 1 - pop` children (each iteration appends at most as many
children as it advances the cursor, and the cursor overshoots by at most 1). -/
theorem evolution_loop_spec (parents : List Individual) (r_cross r_mut : ℚ)
    (mode : String) (options : SizingOptions) (draws : Nat → EvoDraw) (sel : Nat) :
    ∀ (fuel pop : Nat) (children : List Individual),
      parents.length ≤ pop + fuel → pop ≤ parents.length + 1 →
      evolution_loop parents r_cross r_mut mode options draws sel pop children fuel ≠
        Except.error EvoError.fuelExhausted ∧
      ∀ out,
        evolution_loop parents r_cross r_mut mode options draws sel pop children fuel =
          Except.ok out → out.length + pop ≤ children.length + parents.length + 1 := by
  intro fuel
  induction fuel with
  | zero =>
    intro pop children h1 h2
    have hnp : ¬ pop < parents.length := by omega
    constructor
    · simp [evolution_loop, hnp]
    · intro out hout
      simp only [evolution_loop, if_neg hnp] at hout
      injection hout with h
      subst h
      omega
  | succ fuel ih =>
    intro pop children h1 h2
    by_cases hp : pop < parents.length
    · simp only [evolution_loop, if_pos hp]
      by_cases hc : (draws pop).o < r_cross
      · rw [if_pos hc]
        obtain ⟨res, hcx⟩ : ∃ r, crossover_conventional
            (parents.getD ((sel + pop) % parents.length) default)
            (parents.getD ((sel + pop + 1) % parents.length) default) (draws pop).cut = r :=
          ⟨_, rfl⟩
        rw [hcx]
        cases res with
        | error e =>
          rw [propagate_error]
          have hne := crossover_ne_fuel
            (parents.getD ((sel + pop) % parents.length) default)
            (parents.getD ((sel + pop + 1) % parents.length) default) (draws pop).cut
          rw [hcx] at hne
          have hefe : e ≠ EvoError.fuelExhausted := fun he => hne (by rw [he])
          exact ⟨fun hcontra => hefe (by injection hcontra),
            fun out hout => Except.noConfusion hout⟩
        | ok pr =>
          rw [propagate_ok]
          have hrec := ih (pop + 2) (children ++ [pr.1, pr.2]) (by omega) (by omega)
          refine ⟨hrec.1, ?_⟩
          intro out hout
          have hb := hrec.2 out hout
          have hlen2 : (children ++ [pr.1, pr.2]).length = children.length + 2 := by simp
          omega
      · rw [if_neg hc]
        by_cases hm : (draws pop).o < r_cross + r_mut
        · rw [if_pos hm]
          obtain ⟨res, hmu⟩ : ∃ r, (if mode = "bool" then
              mutation_bool (parents.getD ((sel + pop) % parents.length) default)
                (draws pop).bit
            else if mode = "discrete" then
              mutation_discrete (parents.getD ((sel + pop) % parents.length) default)
                options (draws pop).bit (draws pop).choice
            else Except.error EvoError.invalidMode) = r := ⟨_, rfl⟩
          rw [hmu]
          cases res with
          | error e =>
            rw [propagate_error]
            have hne : (if mode = "bool" then
                mutation_bool (parents.getD ((sel + pop) % parents.length) default)
                  (draws pop).bit
              else if mode = "discrete" then
                mutation_discrete (parents.getD ((sel + pop) % parents.length) default)
                  options (draws pop).bit (draws pop).choice
              else Except.error EvoError.invalidMode) ≠
                Except.error EvoError.fuelExhausted := by
              split_ifs
              · exact mutation_bool_ne_fuel _ _
              · exact mutation_discrete_ne_fuel _ _ _ _
              · simp
            rw [hmu] at hne
            have hefe : e ≠ EvoError.fuelExhausted := fun he => hne (by rw [he])
            exact ⟨fun hcontra => hefe (by injection hcontra),
              fun out hout => Except.noConfusion hout⟩
          | ok child =>
            rw [propagate_ok]
            have hrec := ih (pop + 1) (children ++ [child]) (by omega) (by omega)
            refine ⟨hrec.1, ?_⟩
            intro out hout
            have hb := hrec.2 out hout
            have hlen1 : (children ++ [child]).length = children.length + 1 := by simp
            omega
        · rw [if_neg hm]
          have hrec := ih (pop + 1) children (by omega) (by omega)
          refine ⟨hrec.1, ?_⟩
          intro out hout
          have hb := hrec.2 out hout
          omega
    · simp only [evolution_loop, if_neg hp]
      refine ⟨by simp, ?_⟩
      intro out hout
      injection hout with h
      subst h
      omega

/-- Counterexample to claim C10 as stated: on the one-element parent list
whose individual has empty gene vectors, with the crossover branch drawn
(`r_cross = 1`), `evolution` raises — the crossover point draw
`random.randint(1, len(bool_vector) - 1)` has an empty range — rather than
returning a children list, so totality on non-empty parent lists fails. -/
theorem evolution_raises_on_nonempty_parents :
    evolution [(⟨[], []⟩ : Individual)] 1 0 "bool" {} 0 evoDrawsZero =
      Except.error EvoError.emptyRange := by decide

/-- Claim C10 (amended): `evolution` on the empty parent list fails with the
empty-range error of the offset draw; on any parent list the loop terminates
within `len(parents)` iterations (the fuel marker is unreachable), and every
run that does return a children list returns at most `len(parents) + 1`
children.  (A run on a non-empty parent list may still fail, as
`evolution_raises_on_nonempty_parents` shows, when an operator's own draw has
an empty range or the mode string is invalid.) -/
theorem evolution_totality (parents : List Individual) (r_cross r_mut : ℚ)
    (mode : String) (options : SizingOptions) (selDraw : Nat) (draws : Nat → EvoDraw) :
    (parents = [] →
      evolution parents r_cross r_mut mode options selDraw draws =
        Except.error EvoError.emptyRange) ∧
    evolution parents r_cross r_mut mode options selDraw draws ≠
      Except.error EvoError.fuelExhausted ∧
    ∀ children,
      evolution parents r_cross r_mut mode options selDraw draws = Except.ok children →
      children.length ≤ parents.length + 1 := by
  refine ⟨?_, ?_, ?_⟩
  · intro h
    subst h
    rfl
  · unfold evolution
    split_ifs with h0
    · simp
    · exact (evolution_loop_spec parents r_cross r_mut mode options draws
        (selDraw % parents.length) parents.length 0 [] (by omega) (by omega)).1
  · intro children hch
    unfold evolution at hch
    split_ifs at hch with h0
    have hb := (evolution_loop_spec parents r_cross r_mut mode options draws
        (selDraw % parents.length) parents.length 0 [] (by omega) (by omega)).2 children hch
    simpa using hb
